import Mathlib

/-!
Verification development for the Lichess-opening-coach ingestion pipeline
(`DataBases/chess_parser.py`, `DataBases/chess_database.py`,
`DataBases/portable_database.py`).

The Python code is shallowly embedded:
* Python dicts keyed by strings become insertion-ordered association lists
  (`List (String × _)`); an update touches the first matching entry and an
  insert appends at the end, exactly like a Python dict / a Mongo collection
  with a unique index on the key.
* MongoDB update operators `$set` / `$inc` / `$max` become the corresponding
  field updates.
* Wall-clock fields (`created_at`, `updated_at`, `import_date`,
  `import_duration_seconds`) are omitted: they are timestamps taken with
  `datetime.now()` and carry no verifiable content.
* A backend exception during a flush is modelled by a `FlushFault` schedule
  carried in the parser state: each entry prescribes, for one flush, whether
  the bulk insert raises and whether the aggregate upsert raises.
-/

namespace ChessIngest

/-- The six numeric counters of an opening aggregate, without the name.
`total_white_elo` / `total_black_elo` are running sums of ratings, which the
parser reads as Python `int`s, hence `Int`. -/
structure Totals where
  total_games : Nat
  white_wins : Nat
  black_wins : Nat
  draws : Nat
  total_white_elo : Int
  total_black_elo : Int
deriving DecidableEq, Repr

def Totals.add (a b : Totals) : Totals :=
  ⟨a.total_games + b.total_games, a.white_wins + b.white_wins,
   a.black_wins + b.black_wins, a.draws + b.draws,
   a.total_white_elo + b.total_white_elo, a.total_black_elo + b.total_black_elo⟩

def Totals.zero : Totals := ⟨0, 0, 0, 0, 0, 0⟩

theorem Totals.add_assoc (a b c : Totals) :
    Totals.add (Totals.add a b) c = Totals.add a (Totals.add b c) := by
  cases a; cases b; cases c
  simp only [Totals.add, Totals.mk.injEq]
  omega

theorem Totals.add_comm (a b : Totals) : Totals.add a b = Totals.add b a := by
  cases a; cases b
  simp only [Totals.add, Totals.mk.injEq]
  omega

theorem Totals.zero_add (a : Totals) : Totals.add Totals.zero a = a := by
  cases a
  simp only [Totals.add, Totals.zero, Totals.mk.injEq]
  omega

theorem Totals.add_zero (a : Totals) : Totals.add a Totals.zero = a := by
  cases a
  simp only [Totals.add, Totals.zero, Totals.mk.injEq]
  omega

/-- Addition of optional totals: `none` means "no entry for this key". -/
def oadd : Option Totals → Option Totals → Option Totals
  | none, y => y
  | some a, none => some a
  | some a, some b => some (Totals.add a b)

@[simp] theorem oadd_none_left (y : Option Totals) : oadd none y = y := rfl

@[simp] theorem oadd_none_right (x : Option Totals) : oadd x none = x := by
  cases x <;> rfl

theorem oadd_assoc (x y z : Option Totals) :
    oadd (oadd x y) z = oadd x (oadd y z) := by
  cases x <;> cases y <;> cases z <;> simp [oadd, Totals.add_assoc]

theorem oadd_comm (x y : Option Totals) : oadd x y = oadd y x := by
  cases x <;> cases y <;> simp [oadd, Totals.add_comm]

/-- One row of the `openings_buffer` dict built by
`OptimizedPGNParser._buffer_opening_stats`, and also one persisted document of
the `openings` collection (the collection has a unique index on `eco_code`). -/
structure Agg where
  eco_code : String
  opening_name : String
  total_games : Nat
  white_wins : Nat
  black_wins : Nat
  draws : Nat
  total_white_elo : Int
  total_black_elo : Int
deriving DecidableEq, Repr

def Agg.totals (a : Agg) : Totals :=
  ⟨a.total_games, a.white_wins, a.black_wins, a.draws,
   a.total_white_elo, a.total_black_elo⟩

/-- The five arguments `_buffer_opening_stats` receives for one accepted game. -/
structure GameObs where
  eco : String
  opening_name : String
  result : String
  white_elo : Int
  black_elo : Int
deriving DecidableEq, Repr

/-- The per-game contribution to the totals of its opening code:
one game, the matching outcome bucket, and both rating sums. -/
def unitObs (o : GameObs) : Totals :=
  ⟨1,
   if o.result = "1-0" then 1 else 0,
   if o.result = "0-1" then 1 else 0,
   if o.result = "1/2-1/2" then 1 else 0,
   o.white_elo, o.black_elo⟩

/-- The fresh zero entry `_buffer_opening_stats` creates when `eco_code` is not
yet a key of `openings_buffer`. -/
def initAgg (o : GameObs) : Agg :=
  ⟨o.eco, o.opening_name, 0, 0, 0, 0, 0, 0⟩

/-- The in-place increments `_buffer_opening_stats` applies to the entry of the
game's opening code: `total_games += 1`, both rating sums, and one outcome
bucket chosen by the result string (an unrecognized result increments none). -/
def updAgg (o : GameObs) (a : Agg) : Agg :=
  { a with
    total_games := a.total_games + 1,
    total_white_elo := a.total_white_elo + o.white_elo,
    total_black_elo := a.total_black_elo + o.black_elo,
    white_wins := if o.result = "1-0" then a.white_wins + 1 else a.white_wins,
    black_wins := if o.result = "0-1" then a.black_wins + 1 else a.black_wins,
    draws := if o.result = "1/2-1/2" then a.draws + 1 else a.draws }

/-- `OptimizedPGNParser._buffer_opening_stats`: create the entry for the
game's opening code if absent (appended at the end, as in a Python dict),
then apply the increments to it. -/
def bufferOpeningStats : List (String × Agg) → GameObs → List (String × Agg)
  | [], o => [(o.eco, updAgg o (initAgg o))]
  | (k, a) :: rest, o =>
    if k = o.eco then (k, updAgg o a) :: rest
    else (k, a) :: bufferOpeningStats rest o

/-- First-match lookup in an insertion-ordered association list (a Python dict
access / a Mongo `find_one` on the unique key). -/
def lookupFirst {α : Type} : List (String × α) → String → Option α
  | [], _ => none
  | (k, a) :: rest, c => if k = c then some a else lookupFirst rest c

/-- Sum of the totals of all entries of a buffer that carry the given key. -/
def bufTotals : List (String × Agg) → String → Option Totals
  | [], _ => none
  | (k, a) :: rest, c =>
    oadd (if k = c then some a.totals else none) (bufTotals rest c)

/-- Combined totals contributed by a sequence of observations to one key. -/
def obsT : List GameObs → String → Option Totals
  | [], _ => none
  | o :: os, c => oadd (if o.eco = c then some (unitObs o) else none) (obsT os c)

theorem totals_updAgg (o : GameObs) (a : Agg) :
    (updAgg o a).totals = Totals.add a.totals (unitObs o) := by
  cases a
  simp only [updAgg, Agg.totals, unitObs, Totals.add, Totals.mk.injEq]
  split_ifs <;> simp

theorem totals_initAgg (o : GameObs) : (initAgg o).totals = Totals.zero := rfl

/-- One `_buffer_opening_stats` call adds exactly the game's unit contribution
to the summed totals of its key and leaves every other key unchanged. -/
theorem bufTotals_bufferOpeningStats (buf : List (String × Agg)) (o : GameObs)
    (c : String) :
    bufTotals (bufferOpeningStats buf o) c =
      oadd (bufTotals buf c) (if o.eco = c then some (unitObs o) else none) := by
  induction buf with
  | nil =>
    by_cases h : o.eco = c
    · simp [bufferOpeningStats, bufTotals, h, totals_updAgg, totals_initAgg,
        Totals.zero_add, oadd]
    · simp [bufferOpeningStats, bufTotals, h, oadd]
  | cons p rest ih =>
    obtain ⟨k, a⟩ := p
    simp only [bufferOpeningStats]
    by_cases hk : k = o.eco
    · rw [if_pos hk]
      by_cases hc : k = c
      · have heco : o.eco = c := by rw [← hk]; exact hc
        rw [if_pos heco]
        have e1 : bufTotals ((k, updAgg o a) :: rest) c
            = oadd (some (Totals.add a.totals (unitObs o))) (bufTotals rest c) := by
          simp [bufTotals, hc, totals_updAgg]
        have e2 : bufTotals ((k, a) :: rest) c
            = oadd (some a.totals) (bufTotals rest c) := by
          simp [bufTotals, hc]
        rw [e1, e2, oadd_assoc, oadd_comm (bufTotals rest c) (some (unitObs o)),
          ← oadd_assoc]
        simp [oadd]
      · have heco : ¬ o.eco = c := by rw [← hk]; exact hc
        rw [if_neg heco, oadd_none_right]
        simp [bufTotals, hc]
    · rw [if_neg hk]
      have e1 : bufTotals ((k, a) :: bufferOpeningStats rest o) c
          = oadd (if k = c then some a.totals else none)
              (bufTotals (bufferOpeningStats rest o) c) := by
        simp [bufTotals]
      have e2 : bufTotals ((k, a) :: rest) c
          = oadd (if k = c then some a.totals else none) (bufTotals rest c) := by
        simp [bufTotals]
      rw [e1, ih, e2, oadd_assoc]

theorem obsT_append (xs ys : List GameObs) (c : String) :
    obsT (xs ++ ys) c = oadd (obsT xs c) (obsT ys c) := by
  induction xs with
  | nil => simp [obsT]
  | cons o xs ih => simp [obsT, ih, oadd_assoc]

theorem bufTotals_append (xs ys : List (String × Agg)) (c : String) :
    bufTotals (xs ++ ys) c = oadd (bufTotals xs c) (bufTotals ys c) := by
  induction xs with
  | nil => simp [bufTotals]
  | cons p xs ih =>
    obtain ⟨k, a⟩ := p
    simp [bufTotals, ih, oadd_assoc]

/-- Folding a sequence of observations into the accumulator adds, key by key,
exactly the combined contributions of the sequence. -/
theorem bufTotals_foldl (os : List GameObs) (buf : List (String × Agg))
    (c : String) :
    bufTotals (List.foldl bufferOpeningStats buf os) c =
      oadd (bufTotals buf c) (obsT os c) := by
  induction os generalizing buf with
  | nil => simp [obsT]
  | cons o os ih =>
    simp only [List.foldl_cons, obsT]
    rw [ih, bufTotals_bufferOpeningStats, oadd_assoc]

/-- The document the Mongo `UpdateOne(..., upsert=True)` creates when no row
with the opening code exists: the filter key, the `$set` name, and the `$inc`
counters applied to an absent (zero) document. -/
def upsertRow (eco : String) (d : Agg) : Agg :=
  ⟨eco, d.opening_name, d.total_games, d.white_wins, d.black_wins, d.draws,
   d.total_white_elo, d.total_black_elo⟩

/-- The update the Mongo `UpdateOne` applies to an existing row: `$set` the
opening name (overwriting it) and `$inc` all six counters. -/
def applySetInc (row d : Agg) : Agg :=
  { row with
    opening_name := d.opening_name,
    total_games := row.total_games + d.total_games,
    white_wins := row.white_wins + d.white_wins,
    black_wins := row.black_wins + d.black_wins,
    draws := row.draws + d.draws,
    total_white_elo := row.total_white_elo + d.total_white_elo,
    total_black_elo := row.total_black_elo + d.total_black_elo }

/-- One `UpdateOne({"eco_code": eco}, {"$set": ..., "$inc": ...}, upsert=True)`
against the `openings` collection (unique index on `eco_code`). -/
def updateOne : List (String × Agg) → String → Agg → List (String × Agg)
  | [], eco, d => [(eco, upsertRow eco d)]
  | (k, row) :: rest, eco, d =>
    if k = eco then (k, applySetInc row d) :: rest
    else (k, row) :: updateOne rest eco d

/-- `ChessDatabaseManager.update_opening_statistics`: one upsert per entry of
the drained `openings_buffer` mapping. -/
def update_opening_statistics (s : List (String × Agg))
    (buf : List (String × Agg)) : List (String × Agg) :=
  buf.foldl (fun s kd => updateOne s kd.1 kd.2) s

/-- The six persisted counters of the row of a given opening code. -/
def totalsLookup (s : List (String × Agg)) (c : String) : Option Totals :=
  (lookupFirst s c).map Agg.totals

/-- The persisted opening name of the row of a given opening code. -/
def nameLookup (s : List (String × Agg)) (c : String) : Option String :=
  (lookupFirst s c).map Agg.opening_name

theorem totals_upsertRow (eco : String) (d : Agg) :
    (upsertRow eco d).totals = d.totals := rfl

theorem totals_applySetInc (row d : Agg) :
    (applySetInc row d).totals = Totals.add row.totals d.totals := rfl

theorem totalsLookup_updateOne (s : List (String × Agg)) (k : String) (d : Agg)
    (c : String) :
    totalsLookup (updateOne s k d) c =
      oadd (totalsLookup s c) (if k = c then some d.totals else none) := by
  induction s with
  | nil =>
    by_cases h : k = c <;>
      simp [updateOne, totalsLookup, lookupFirst, h, oadd, totals_upsertRow]
  | cons p rest ih =>
    obtain ⟨k0, row⟩ := p
    simp only [updateOne]
    by_cases h0 : k0 = k
    · rw [if_pos h0]
      by_cases hc : k0 = c
      · have hkc : k = c := by rw [← h0]; exact hc
        simp [totalsLookup, lookupFirst, hc, hkc, oadd, totals_applySetInc]
      · have hkc : ¬ k = c := by rw [← h0]; exact hc
        simp [totalsLookup, lookupFirst, hc, hkc]
    · rw [if_neg h0]
      by_cases hc : k0 = c
      · have hkc : ¬ k = c := by rw [← hc]; intro h; exact h0 h.symm
        simp [totalsLookup, lookupFirst, hc, hkc, oadd]
      · simpa [totalsLookup, lookupFirst, hc] using ih


/-- A whole `update_opening_statistics` call adds, key by key, the summed
totals of the handed mapping to the persisted totals. -/
theorem totalsLookup_update (s buf : List (String × Agg)) (c : String) :
    totalsLookup (update_opening_statistics s buf) c =
      oadd (totalsLookup s c) (bufTotals buf c) := by
  induction buf generalizing s with
  | nil => simp [update_opening_statistics, bufTotals]
  | cons kd buf ih =>
    obtain ⟨k, d⟩ := kd
    simp only [update_opening_statistics, List.foldl_cons] at ih ⊢
    rw [ih, totalsLookup_updateOne, bufTotals, oadd_assoc]

/-- The name carried by the last entry of a delta list that touches a key. -/
def lastNameFor : List (String × Agg) → String → Option String
  | [], _ => none
  | (k, d) :: rest, c =>
    match lastNameFor rest c with
    | some n => some n
    | none => if k = c then some d.opening_name else none

theorem lastNameFor_append (xs ys : List (String × Agg)) (c : String) :
    lastNameFor (xs ++ ys) c =
      match lastNameFor ys c with
      | some n => some n
      | none => lastNameFor xs c := by
  induction xs with
  | nil =>
    simp only [List.nil_append, lastNameFor]
    cases lastNameFor ys c <;> rfl
  | cons p xs ih =>
    obtain ⟨k, d⟩ := p
    have step : lastNameFor (((k, d) :: xs) ++ ys) c =
        match lastNameFor (xs ++ ys) c with
        | some n => some n
        | none => if k = c then some d.opening_name else none := rfl
    rw [step, ih]
    simp only [lastNameFor]
    cases lastNameFor ys c <;> cases lastNameFor xs c <;> rfl

theorem nameLookup_updateOne (s : List (String × Agg)) (k : String) (d : Agg)
    (c : String) :
    nameLookup (updateOne s k d) c =
      if k = c then some d.opening_name else nameLookup s c := by
  induction s with
  | nil =>
    by_cases h : k = c <;> simp [updateOne, nameLookup, lookupFirst, h, upsertRow]
  | cons p rest ih =>
    obtain ⟨k0, row⟩ := p
    simp only [updateOne]
    by_cases h0 : k0 = k
    · rw [if_pos h0]
      by_cases hc : k0 = c
      · have hkc : k = c := by rw [← h0]; exact hc
        simp [nameLookup, lookupFirst, hc, hkc, applySetInc]
      · have hkc : ¬ k = c := by rw [← h0]; exact hc
        simp [nameLookup, lookupFirst, hc, hkc]
    · rw [if_neg h0]
      by_cases hc : k0 = c
      · have hkc : ¬ k = c := by rw [← hc]; intro h; exact h0 h.symm
        simp [nameLookup, lookupFirst, hc, hkc]
      · simpa [nameLookup, lookupFirst, hc] using ih

/-- The persisted opening name after a batch of upserts is the name of the
last delta of the batch touching the key (the `$set` overwrites), or the
previously persisted name if the batch does not touch the key. -/
theorem nameLookup_update (s buf : List (String × Agg)) (c : String) :
    nameLookup (update_opening_statistics s buf) c =
      match lastNameFor buf c with
      | some n => some n
      | none => nameLookup s c := by
  induction buf generalizing s with
  | nil => simp [update_opening_statistics, lastNameFor]
  | cons kd buf ih =>
    obtain ⟨k, d⟩ := kd
    simp only [update_opening_statistics, List.foldl_cons] at ih ⊢
    rw [ih, nameLookup_updateOne, lastNameFor]
    cases lastNameFor buf c
    · by_cases h : k = c <;> simp [h]
    · rfl

/-- Effect of one `_buffer_opening_stats` call on the (optional) entry of one
key: if the game has that opening code, the entry is incremented (created from
the zero entry first if absent), otherwise it is untouched. -/
def applyObs (o : GameObs) (k : String) (e : Option Agg) : Option Agg :=
  if o.eco = k then some (updAgg o (e.getD (initAgg o))) else e

def applyList (os : List GameObs) (k : String) (e : Option Agg) : Option Agg :=
  os.foldl (fun e o => applyObs o k e) e

theorem lookupFirst_bufferOpeningStats (buf : List (String × Agg))
    (o : GameObs) (k : String) :
    lookupFirst (bufferOpeningStats buf o) k = applyObs o k (lookupFirst buf k) := by
  induction buf with
  | nil =>
    by_cases h : o.eco = k <;>
      simp [bufferOpeningStats, lookupFirst, applyObs, h]
  | cons p rest ih =>
    obtain ⟨k0, a⟩ := p
    simp only [bufferOpeningStats]
    by_cases h0 : k0 = o.eco
    · rw [if_pos h0]
      by_cases hk : k0 = k
      · have he : o.eco = k := by rw [← h0]; exact hk
        simp [lookupFirst, hk, applyObs, he]
      · have he : ¬ o.eco = k := by rw [← h0]; exact hk
        simp [lookupFirst, hk, applyObs, he]
    · rw [if_neg h0]
      by_cases hk : k0 = k
      · have he : ¬ o.eco = k := by
          rw [← hk]; intro h; exact h0 h.symm
        simp [lookupFirst, hk, applyObs, he]
      · simpa [lookupFirst, hk] using ih

theorem lookupFirst_foldl_buffer (os : List GameObs)
    (buf : List (String × Agg)) (k : String) :
    lookupFirst (List.foldl bufferOpeningStats buf os) k =
      applyList os k (lookupFirst buf k) := by
  induction os generalizing buf with
  | nil => rfl
  | cons o os ih =>
    simp only [List.foldl_cons, applyList, ih, lookupFirst_bufferOpeningStats]

/-- A result string that is none of the three recognized outcomes. -/
def unrecognizedResult (r : String) : Bool :=
  !(decide (r = "1-0") || decide (r = "0-1") || decide (r = "1/2-1/2"))

/-- Number of observations of a key whose result string is unrecognized. -/
def unrecCount (os : List GameObs) (k : String) : Nat :=
  os.countP (fun o => decide (o.eco = k) && unrecognizedResult o.result)

theorem unrecCount_cons (o : GameObs) (os : List GameObs) (k : String) :
    unrecCount (o :: os) k =
      unrecCount os k +
        (if o.eco = k ∧ unrecognizedResult o.result then 1 else 0) := by
  simp only [unrecCount, List.countP_cons, Bool.and_eq_true, decide_eq_true_eq]

theorem applyList_bucket_gen (os : List GameObs) (k : String) (a0 a : Agg)
    (h : applyList os k (some a0) = some a) :
    a.total_games + a0.white_wins + a0.black_wins + a0.draws =
      a.white_wins + a.black_wins + a.draws + unrecCount os k +
        a0.total_games := by
  induction os generalizing a0 with
  | nil =>
    have : a0 = a := by simpa [applyList] using h
    subst this
    simp only [unrecCount, List.countP_nil]
    omega
  | cons o os ih =>
    rw [unrecCount_cons]
    by_cases he : o.eco = k
    · have h2 : applyList os k (some (updAgg o a0)) = some a := by
        simpa [applyList, applyObs, he] using h
      have := ih (updAgg o a0) h2
      by_cases r1 : o.result = "1-0" <;> by_cases r2 : o.result = "0-1" <;>
        by_cases r3 : o.result = "1/2-1/2" <;>
        simp_all [updAgg, unrecognizedResult, he] <;> omega
    · have h2 : applyList os k (some a0) = some a := by
        simpa [applyList, applyObs, he] using h
      have := ih a0 h2
      simp [he]
      omega

theorem applyList_bucket (os : List GameObs) (k : String) (a : Agg)
    (h : applyList os k none = some a) :
    a.total_games = a.white_wins + a.black_wins + a.draws + unrecCount os k := by
  induction os with
  | nil => simp [applyList] at h
  | cons o os ih =>
    rw [unrecCount_cons]
    by_cases he : o.eco = k
    · have h2 : applyList os k (some (updAgg o (initAgg o))) = some a := by
        simpa [applyList, applyObs, he] using h
      have := applyList_bucket_gen os k (updAgg o (initAgg o)) a h2
      by_cases r1 : o.result = "1-0" <;> by_cases r2 : o.result = "0-1" <;>
        by_cases r3 : o.result = "1/2-1/2" <;>
        (simp_all [updAgg, initAgg, unrecognizedResult, he]; try omega)
    · have h2 : applyList os k none = some a := by
        simpa [applyList, applyObs, he] using h
      have := ih h2
      simp [he]
      omega

/-- Membership of a character in a string's character list (Python `in`). -/
def charsContains : List Char → Char → Bool
  | [], _ => false
  | c :: cs, x => (c = x) || charsContains cs x

def charsSplitOnAux : List Char → Char → List Char → List (List Char)
  | [], _, acc => [acc.reverse]
  | c :: cs, sep, acc =>
    if c = sep then acc.reverse :: charsSplitOnAux cs sep []
    else charsSplitOnAux cs sep (c :: acc)

/-- Python `str.split(sep)` for a one-character separator. -/
def charsSplitOn (cs : List Char) (sep : Char) : List (List Char) :=
  charsSplitOnAux cs sep []

/-- The common whitespace characters Python `str.strip()` removes. -/
def isPySpace (c : Char) : Bool := c = ' ' || c = '\t' || c = '\n' || c = '\r'

/-- Python `str.strip()`. -/
def charsStrip (cs : List Char) : List Char :=
  ((cs.dropWhile isPySpace).reverse.dropWhile isPySpace).reverse

def isDigitChar (c : Char) : Bool := 48 ≤ c.toNat && c.toNat ≤ 57

def digitsVal (cs : List Char) : Nat :=
  cs.foldl (fun n c => n * 10 + (c.toNat - 48)) 0

/-- The digit runs Python `int(...)` accepts after the optional sign: a
nonempty sequence of decimal digits where a single underscore may stand
strictly between two digits (PEP 515 digit grouping): `"1_0"` is accepted,
`""`, `"_1"`, `"1_"` and `"1__0"` are not. -/
def digitsGroupOk : List Char → Bool
  | [] => false
  | [c] => isDigitChar c
  | c :: '_' :: rest => isDigitChar c && digitsGroupOk rest
  | c :: rest => isDigitChar c && digitsGroupOk rest

/-- Python `int(...)` applied to a string: strip surrounding whitespace, an
optional sign, then a PEP 515 digit run whose value ignores the grouping
underscores. `none` where `int` raises `ValueError`. -/
def pyIntChars? (cs : List Char) : Option Int :=
  let t := charsStrip cs
  let sign : Int := if t.take 1 = ['-'] then -1 else 1
  let digits := if t.take 1 = ['-'] || t.take 1 = ['+'] then t.drop 1 else t
  if digitsGroupOk digits then
    some (sign * Int.ofNat (digitsVal (digits.filter (fun c => c != '_'))))
  else none

def pyInt? (s : String) : Option Int := pyIntChars? s.data

/-- Whether the first list is an initial run of the second. -/
def listStarts : List Char → List Char → Bool
  | [], _ => true
  | _ :: _, [] => false
  | p :: ps, c :: cs => (p = c) && listStarts ps cs

/-- Python `str.startswith(pat)`. -/
def strStarts (s pat : String) : Bool := listStarts pat.data s.data

/-- Python `str.endswith(pat)`. -/
def strEnds (s pat : String) : Bool := listStarts pat.data.reverse s.data.reverse

/-- Python `str.upper()` (ASCII, which covers the fixed title list). -/
def toUpperStr (s : String) : String := ⟨s.data.map Char.toUpper⟩

/-- `extract_title`: the first of the fixed title list that prefixes or
suffixes the upper-cased username joined by an underscore or a dash. -/
def extract_title (username : String) : Option String :=
  let username_upper := toUpperStr username
  ["GM", "IM", "FM", "CM", "WGM", "WIM", "WFM", "WCM"].find?
    (fun t =>
      strStarts username_upper (t ++ "_") ||
      strStarts username_upper (t ++ "-") ||
      strEnds username_upper ("_" ++ t) ||
      strEnds username_upper ("-" ++ t))

/-- `categorize_time_control`: empty or `"-"` input is unknown; a string
containing `'+'` must split into exactly a base and an increment, giving
`base + 40 * increment` total seconds; otherwise the whole string is the
total; any `int` failure is unknown; then the threshold ladder. -/
def categorize_time_control (time_control_str : String) : String :=
  if time_control_str = "" || time_control_str = "-" then "unknown"
  else
    let total? : Option Int :=
      if charsContains time_control_str.data '+' then
        match charsSplitOn time_control_str.data '+' with
        | [base, increment] =>
          match pyIntChars? base, pyIntChars? increment with
          | some b, some i => some (b + 40 * i)
          | _, _ => none
        | _ => none
      else pyIntChars? time_control_str.data
    match total? with
    | none => "unknown"
    | some total_seconds =>
      if total_seconds < 180 then "bullet"
      else if total_seconds < 600 then "blitz"
      else if total_seconds < 1500 then "rapid"
      else "classical"

/-- One document of the Mongo `players` collection (timestamps omitted). -/
structure MPlayer where
  title : Option String
  current_rating : Int
  peak_rating : Int
  games_played : Nat
deriving DecidableEq, Repr

/-- `ChessDatabaseManager.get_or_create_player`: `find_one` by username; if
found, `$set` the current rating, `$max` the peak, `$inc` the games counter
(the title is not touched on update); otherwise insert a new document.  The
returned ObjectId is modelled by the username, which the unique index on
`username` makes a stable identifier; the `date` argument of the source is
accepted and never used, so it is dropped here. -/
def get_or_create_player : List (String × MPlayer) → String → Int →
    Option String → List (String × MPlayer)
  | [], username, rating, title => [(username, ⟨title, rating, rating, 1⟩)]
  | (k, p) :: rest, username, rating, title =>
    if k = username then
      (k, { p with
            current_rating := rating,
            peak_rating := max p.peak_rating rating,
            games_played := p.games_played + 1 }) :: rest
    else (k, p) :: get_or_create_player rest username rating title

/-- One row of the SQLite `players` table (timestamps omitted).  Every code
path that writes the row sets `peak_rating`, so the column is modelled as a
plain `Int` and the `or 0` NULL-guard of the source is the identity. -/
structure PPlayer where
  current_rating : Int
  peak_rating : Int
  games_played : Nat
deriving DecidableEq, Repr

/-- `PortableDatabaseManager.get_or_create_player`: SELECT by username; if a
row exists, set the current rating, set the peak to
`max(current_peak, rating) if rating else current_peak` (Python truthiness: a
0 rating skips the max), and increment the counter; else INSERT with
peak = current = rating and games_played 1.  This schema has no title column
and the method takes no title argument. -/
def p_get_or_create_player : List (String × PPlayer) → String → Int →
    List (String × PPlayer)
  | [], username, rating => [(username, ⟨rating, rating, 1⟩)]
  | (k, p) :: rest, username, rating =>
    if k = username then
      let current_peak := p.peak_rating
      let new_peak := if rating ≠ 0 then max current_peak rating else current_peak
      (k, ⟨rating, new_peak, p.games_played + 1⟩) :: rest
    else (k, p) :: p_get_or_create_player rest username rating

/-- The `game_data` document `parse_game` builds (the `created_at` timestamp
omitted; player ObjectIds modelled by usernames).  The date is kept as the
raw header string: `parse_pgn_date` is advisory and its result is never read
by the ingestion path. -/
structure GameRecord where
  white_player_id : String
  black_player_id : String
  white_elo : Int
  black_elo : Int
  result : String
  date : Option String
  eco_code : String
  opening_name : String
  time_control : String
  moves : List String
  event : String
  site : String
deriving DecidableEq, Repr

/-- One document of the `metadata` collection as written at the end of
`ingest_pgn_file` (`import_date` and the wall-clock duration omitted). -/
structure Checkpoint where
  file_source : String
  games_imported : Nat
  parse_errors : Nat
deriving DecidableEq, Repr

/-- The Mongo database contents touched by the ingestion path. -/
structure DB where
  players : List (String × MPlayer)
  games : List GameRecord
  openings : List (String × Agg)
  metadata : List Checkpoint
deriving DecidableEq, Repr

/-- Environment behaviour of the backend during one flush: whether
`bulk_insert_games` raises and whether `update_opening_statistics` raises
(an escaping exception, e.g. a connection error; partial `BulkWriteError`s
are absorbed inside those methods and do not escape). -/
structure FlushFault where
  insert_raises : Bool
  upsert_raises : Bool
deriving DecidableEq, Repr

/-- `OptimizedPGNParser` state together with its database, plus the
prescribed fault behaviour of successive flushes. -/
structure PState where
  db : DB
  games_buffer : List GameRecord
  openings_buffer : List (String × Agg)
  parse_errors : Nat
  faults : List FlushFault
deriving DecidableEq, Repr

/-- Parser configuration: `batch_size` and `max_memory_bytes`, plus the
byte estimate of `get_buffer_size_bytes` (`sys.getsizeof` over both buffers
in the source), abstracted to an arbitrary size function of the buffers. -/
structure Cfg where
  batch_size : Nat
  max_memory_bytes : Nat
  sizeEstimate : List GameRecord → List (String × Agg) → Nat

/-- Headers and movetext of one block successfully read by
`chess.pgn.read_game`; `none` models an absent header key.  The Elo headers
are already integers: a non-integer Elo header makes `int(...)` raise inside
the enclosing `try` of `parse_game`, a rejection that happens before any
side effect and needs no separate modelling here. -/
structure RawGame where
  white : Option String
  black : Option String
  whiteEloHeader : Option Int
  blackEloHeader : Option Int
  result : Option String
  dateStr : Option String
  eco : Option String
  opening : Option String
  timeControl : Option String
  event : Option String
  site : Option String
  moves : List String
deriving DecidableEq, Repr

/-- `OptimizedPGNParser.get_buffer_size_bytes`. -/
def get_buffer_size_bytes (cfg : Cfg) (st : PState) : Nat :=
  cfg.sizeEstimate st.games_buffer st.openings_buffer

/-- `OptimizedPGNParser.should_flush`. -/
def should_flush (cfg : Cfg) (st : PState) : Bool :=
  decide (cfg.batch_size ≤ st.games_buffer.length) ||
  decide (cfg.max_memory_bytes ≤ get_buffer_size_bytes cfg st)

/-- `OptimizedPGNParser.parse_game`: resolve both player identities, extract
the move list, then validate the move count and both ratings (rejecting with
`None`), and only then build the game document and fold the opening delta
into `openings_buffer`. -/
def parse_game (st : PState) (g : RawGame) : PState × Option GameRecord :=
  let white_username := g.white.getD "Unknown"
  let black_username := g.black.getD "Unknown"
  let white_elo := g.whiteEloHeader.getD 1500
  let black_elo := g.blackEloHeader.getD 1500
  let white_title := extract_title white_username
  let black_title := extract_title black_username
  let players1 := get_or_create_player st.db.players white_username white_elo white_title
  let players2 := get_or_create_player players1 black_username black_elo black_title
  let st2 := { st with db := { st.db with players := players2 } }
  if 500 < g.moves.length ∨ g.moves.length < 2 then (st2, none)
  else if white_elo < 0 ∨ 3500 < white_elo ∨ black_elo < 0 ∨ 3500 < black_elo then
    (st2, none)
  else
    let game_data : GameRecord :=
      { white_player_id := white_username,
        black_player_id := black_username,
        white_elo := white_elo,
        black_elo := black_elo,
        result := g.result.getD "*",
        date := g.dateStr,
        eco_code := g.eco.getD "A00",
        opening_name := g.opening.getD "Unknown",
        time_control := categorize_time_control (g.timeControl.getD ""),
        moves := g.moves,
        event := g.event.getD "",
        site := g.site.getD "" }
    let delta : GameObs :=
      ⟨game_data.eco_code, game_data.opening_name, game_data.result,
       white_elo, black_elo⟩
    let st3 :=
      { st2 with openings_buffer := bufferOpeningStats st2.openings_buffer delta }
    (st3, some game_data)

/-- `OptimizedPGNParser.flush_buffers`: return early if both buffers are
empty; otherwise bulk-insert the games (if any), then upsert the opening
statistics (if any); an exception from either call is caught and logged, and
the `finally` block always clears both buffers. -/
def flush_buffers (st : PState) : PState :=
  if st.games_buffer.isEmpty && st.openings_buffer.isEmpty then st
  else
    let fault := st.faults.headD ⟨false, false⟩
    let insert_raised := !st.games_buffer.isEmpty && fault.insert_raises
    let db1 :=
      if st.games_buffer.isEmpty then st.db
      else if fault.insert_raises then st.db
      else { st.db with games := st.db.games ++ st.games_buffer }
    let db2 :=
      if insert_raised then db1
      else if st.openings_buffer.isEmpty then db1
      else if fault.upsert_raises then db1
      else { db1 with openings := update_opening_statistics db1.openings st.openings_buffer }
    { st with
      db := db2,
      games_buffer := [],
      openings_buffer := [],
      faults := st.faults.tail }

def appendRecord (st : PState) (r : GameRecord) : PState :=
  { st with games_buffer := st.games_buffer ++ [r] }

/-- The loop body of `ingest_pgn_file` for one accepted record: append it to
`games_buffer`, then auto-flush exactly when `should_flush` holds. -/
def ingestStepAccepted (cfg : Cfg) (st : PState) (r : GameRecord) : PState :=
  let st2 := appendRecord st r
  if should_flush cfg st2 then flush_buffers st2 else st2

/-- Python truthiness of `max_games and games_processed >= max_games`. -/
def reachedLimit (maxGames : Option Nat) (n : Nat) : Bool :=
  match maxGames with
  | some m => decide (m ≠ 0) && decide (m ≤ n)
  | none => false

/-- The per-block loop of `OptimizedPGNParser.ingest_pgn_file`: parse each
block; on success append and auto-flush and count it, breaking at the
`max_games` limit; on rejection count a parse error and continue. -/
def ingestLoop (cfg : Cfg) (maxGames : Option Nat) :
    PState → Nat → List RawGame → PState × Nat
  | st, n, [] => (st, n)
  | st, n, g :: gs =>
    let pr := parse_game st g
    match pr.2 with
    | some r =>
      let st3 := ingestStepAccepted cfg pr.1 r
      let n2 := n + 1
      if reachedLimit maxGames n2 then (st3, n2)
      else ingestLoop cfg maxGames st3 n2 gs
    | none =>
      ingestLoop cfg maxGames { pr.1 with parse_errors := pr.1.parse_errors + 1 } n gs

/-- `ingest_pgn_file` run to natural end of stream: the loop, a final flush,
then one metadata checkpoint. -/
def ingestFile (cfg : Cfg) (maxGames : Option Nat) (filepath : String)
    (st : PState) (blocks : List RawGame) : PState × Nat :=
  let p := ingestLoop cfg maxGames st 0 blocks
  let st2 := flush_buffers p.1
  ({ st2 with db := { st2.db with metadata :=
      st2.db.metadata ++ [⟨filepath, p.2, st2.parse_errors⟩] } }, p.2)

/-- `ingest_pgn_file` interrupted by `KeyboardInterrupt` after the given
blocks have been consumed: the `except KeyboardInterrupt` handler performs a
flush and the function returns. -/
def ingestInterrupted (cfg : Cfg) (maxGames : Option Nat) (st : PState)
    (blocks : List RawGame) : PState × Nat :=
  let p := ingestLoop cfg maxGames st 0 blocks
  (flush_buffers p.1, p.2)

/-- The backend operations the ingestion pipeline requires of a storage
backend: player resolution, bulk record insert, aggregate upsert, and
checkpoint write. -/
inductive BackendOp where
  | resolvePlayer (username : String) (rating : Int) (title : Option String)
  | bulkInsertRecords (records : List GameRecord)
  | upsertAggregates (deltas : List (String × Agg))
  | recordCheckpoint (c : Checkpoint)
deriving DecidableEq, Repr

/-- Applying one backend operation to the document store
(`ChessDatabaseManager`): all four operations are implemented
(`get_or_create_player`, `bulk_insert_games`, `update_opening_statistics`,
and `metadata.insert_one`). -/
def mongoApplyOp (db : DB) (op : BackendOp) : DB :=
  match op with
  | .resolvePlayer u r t =>
    { db with players := get_or_create_player db.players u r t }
  | .bulkInsertRecords rs => { db with games := db.games ++ rs }
  | .upsertAggregates ds =>
    { db with openings := update_opening_statistics db.openings ds }
  | .recordCheckpoint c => { db with metadata := db.metadata ++ [c] }

/-- The SQLite database contents (`PortableDatabaseManager`): the schema
creates `players`, `games`, `studies` and `study_games` tables only — there
is no openings table and no metadata/checkpoints table. -/
structure PDB where
  players : List (String × PPlayer)
  games : List GameRecord
deriving DecidableEq, Repr

/-- Applying one backend operation to the relational store
(`PortableDatabaseManager`): only player resolution exists.
`bulk_insert_games` and `update_opening_statistics` are not methods of the
class and no `metadata` attribute exists, so those calls raise
`AttributeError`, modelled by `none`. -/
def portableApplyOp (db : PDB) (op : BackendOp) : Option PDB :=
  match op with
  | .resolvePlayer u r _ =>
    some { db with players := p_get_or_create_player db.players u r }
  | .bulkInsertRecords _ => none
  | .upsertAggregates _ => none
  | .recordCheckpoint _ => none

/-- The validation predicate of `parse_game` as a pure function of the block:
move count in [2, 500] and both (defaulted) ratings in [0, 3500]. -/
def acceptsGame (g : RawGame) : Bool :=
  if 500 < g.moves.length ∨ g.moves.length < 2 then false
  else if g.whiteEloHeader.getD 1500 < 0 ∨ 3500 < g.whiteEloHeader.getD 1500 ∨
      g.blackEloHeader.getD 1500 < 0 ∨ 3500 < g.blackEloHeader.getD 1500 then false
  else true

/-- Number of blocks of a stream that pass validation. -/
def countAccepted (blocks : List RawGame) : Nat := blocks.countP acceptsGame

theorem parse_game_isSome (st : PState) (g : RawGame) :
    (parse_game st g).2.isSome = acceptsGame g := by
  simp only [parse_game, acceptsGame]
  split
  · rfl
  · split <;> rfl

theorem parse_game_metadata (st : PState) (g : RawGame) :
    (parse_game st g).1.db.metadata = st.db.metadata := by
  simp only [parse_game]
  split_ifs <;> rfl

theorem parse_game_faults (st : PState) (g : RawGame) :
    (parse_game st g).1.faults = st.faults := by
  simp only [parse_game]
  split_ifs <;> rfl

theorem parse_game_parse_errors (st : PState) (g : RawGame) :
    (parse_game st g).1.parse_errors = st.parse_errors := by
  simp only [parse_game]
  split_ifs <;> rfl

theorem flush_clears (s : PState) :
    (flush_buffers s).games_buffer = [] ∧ (flush_buffers s).openings_buffer = [] := by
  simp only [flush_buffers]
  split
  · rename_i h
    simp only [Bool.and_eq_true, List.isEmpty_iff] at h
    exact ⟨h.1, h.2⟩
  · exact ⟨rfl, rfl⟩

theorem flush_metadata (s : PState) :
    (flush_buffers s).db.metadata = s.db.metadata := by
  simp only [flush_buffers]
  split_ifs <;> rfl

theorem flush_parse_errors (s : PState) :
    (flush_buffers s).parse_errors = s.parse_errors := by
  simp only [flush_buffers]
  split_ifs <;> rfl

theorem flush_faults_nil (s : PState) (h : s.faults = []) :
    (flush_buffers s).faults = [] := by
  simp only [flush_buffers, h]
  split_ifs <;> simp [h]

/-- With no prescribed backend fault, a flush persists the whole pending
record buffer. -/
theorem flush_games_nofault (s : PState) (h : s.faults = []) :
    (flush_buffers s).db.games = s.db.games ++ s.games_buffer := by
  simp only [flush_buffers, h, List.headD_nil, Bool.and_false]
  by_cases hg : s.games_buffer.isEmpty
  · have hg2 : s.games_buffer = [] := by simpa [List.isEmpty_iff] using hg
    split_ifs <;> simp [hg2]
  · split_ifs <;> simp_all

theorem step_metadata (cfg : Cfg) (st : PState) (r : GameRecord) :
    (ingestStepAccepted cfg st r).db.metadata = st.db.metadata := by
  simp only [ingestStepAccepted, appendRecord]
  split
  · rw [flush_metadata]
  · rfl

theorem step_faults_nil (cfg : Cfg) (st : PState) (r : GameRecord)
    (h : st.faults = []) : (ingestStepAccepted cfg st r).faults = [] := by
  simp only [ingestStepAccepted, appendRecord]
  split
  · exact flush_faults_nil _ h
  · exact h

theorem ingestLoop_metadata (cfg : Cfg) (mg : Option Nat) (st : PState) (n : Nat)
    (blocks : List RawGame) :
    (ingestLoop cfg mg st n blocks).1.db.metadata = st.db.metadata := by
  induction blocks generalizing st n with
  | nil => rfl
  | cons g gs ih =>
    simp only [ingestLoop]
    split
    · split
      · rw [step_metadata, parse_game_metadata]
      · rw [ih, step_metadata, parse_game_metadata]
    · rw [ih]
      exact parse_game_metadata st g

theorem ingestLoop_faults_nil (cfg : Cfg) (mg : Option Nat) (st : PState)
    (n : Nat) (blocks : List RawGame) (h : st.faults = []) :
    (ingestLoop cfg mg st n blocks).1.faults = [] := by
  induction blocks generalizing st n with
  | nil => exact h
  | cons g gs ih =>
    simp only [ingestLoop]
    split
    · rename_i r heq
      have hf : (ingestStepAccepted cfg (parse_game st g).1 r).faults = [] :=
        step_faults_nil _ _ _ (by rw [parse_game_faults]; exact h)
      split
      · exact hf
      · exact ih _ _ hf
    · exact ih _ _ (by simpa [parse_game_faults] using h)

/-- The accepted-record counter of the loop counts exactly the blocks that
pass validation, independent of the database, the buffers and the fault
schedule. -/
theorem ingestLoop_count (cfg : Cfg) (st : PState) (n : Nat)
    (blocks : List RawGame) :
    (ingestLoop cfg none st n blocks).2 = n + countAccepted blocks := by
  induction blocks generalizing st n with
  | nil => simp [ingestLoop, countAccepted]
  | cons g gs ih =>
    simp only [ingestLoop]
    split
    · rename_i r heq
      have hacc : acceptsGame g = true := by
        rw [← parse_game_isSome st g, heq]; rfl
      have hl : reachedLimit none (n + 1) = false := rfl
      rw [hl]
      simp only [Bool.false_eq_true, if_false]
      rw [ih]
      simp [countAccepted, List.countP_cons, hacc]
      omega
    · rename_i heq
      have hacc : acceptsGame g = false := by
        rw [← parse_game_isSome st g, heq]; rfl
      rw [ih]
      simp [countAccepted, List.countP_cons, hacc]

/-- An accepted test block: two move tokens, in-range ratings. -/
def okBlock : RawGame :=
  { white := some "Alice", black := some "Bob", whiteEloHeader := some 1500,
    blackEloHeader := some 1600, result := some "1-0", dateStr := none,
    eco := some "B01", opening := some "Scandinavian",
    timeControl := some "300+5", event := none, site := none,
    moves := ["e4", "d5"] }

/-- The same block with a white rating above 3500: validation rejects it. -/
def badEloBlock : RawGame := { okBlock with whiteEloHeader := some 4000 }

def emptyDB : DB := ⟨[], [], [], []⟩

def emptyState : PState := ⟨emptyDB, [], [], 0, []⟩

/-- A configuration whose thresholds are never reached in the small tests. -/
def cfgBig : Cfg := ⟨1000, 1000000000, fun _ _ => 0⟩

def obsWhiteWin : GameObs := ⟨"B01", "Scandinavian", "1-0", 1500, 1600⟩

def obsDraw : GameObs := ⟨"B01", "Modern", "1/2-1/2", 1800, 1520⟩

def obsOdd : GameObs := ⟨"B01", "Scandinavian", "*", 1500, 1600⟩

/-- The game document `parse_game` produces for `okBlock`. -/
def testRecord : GameRecord :=
  ⟨"Alice", "Bob", 1500, 1600, "1-0", none, "B01", "Scandinavian", "blitz",
   ["e4", "d5"], "", ""⟩

/-- C9: for every time-control string of the form "base+increment" the
category is decided by `base + 40*increment` total seconds through the
bullet/blitz/rapid/classical ladder, and absent or unparsable input yields
"unknown" — whether the parse fails on a component of a '+' split, on a
malformed split, or on a '+'-free string that is not an integer (e.g. the
PGN placeholder "?"). -/
theorem c9_time_control_category :
    (∀ (s : String) (b i : List Char) (bv iv : Int),
      s ≠ "" → s ≠ "-" → charsContains s.data '+' = true →
      charsSplitOn s.data '+' = [b, i] →
      pyIntChars? b = some bv → pyIntChars? i = some iv →
      categorize_time_control s =
        if bv + 40 * iv < 180 then "bullet"
        else if bv + 40 * iv < 600 then "blitz"
        else if bv + 40 * iv < 1500 then "rapid"
        else "classical") ∧
    categorize_time_control "" = "unknown" ∧
    categorize_time_control "-" = "unknown" ∧
    (∀ (s : String) (b i : List Char), s ≠ "" → s ≠ "-" →
      charsContains s.data '+' = true → charsSplitOn s.data '+' = [b, i] →
      pyIntChars? b = none ∨ pyIntChars? i = none →
      categorize_time_control s = "unknown") ∧
    (∀ (s : String) (parts : List (List Char)), s ≠ "" → s ≠ "-" →
      charsContains s.data '+' = true → charsSplitOn s.data '+' = parts →
      parts.length ≠ 2 →
      categorize_time_control s = "unknown") ∧
    (∀ s : String, s ≠ "" → s ≠ "-" → charsContains s.data '+' = false →
      pyIntChars? s.data = none →
      categorize_time_control s = "unknown") := by
  refine ⟨?_, rfl, rfl, ?_, ?_, ?_⟩
  · intro s b i bv iv h1 h2 h3 hs hb hi
    simp [categorize_time_control, h1, h2, h3, hs, hb, hi]
  · intro s b i h1 h2 h3 hs hor
    rcases hor with hb | hi
    · simp [categorize_time_control, h1, h2, h3, hs, hb]
    · cases hpb : pyIntChars? b
      · simp [categorize_time_control, h1, h2, h3, hs, hpb]
      · simp [categorize_time_control, h1, h2, h3, hs, hpb, hi]
  · intro s parts h1 h2 h3 hp hlen
    cases parts with
    | nil => simp [categorize_time_control, h1, h2, h3, hp]
    | cons x xs =>
      cases xs with
      | nil => simp [categorize_time_control, h1, h2, h3, hp]
      | cons y ys =>
        cases ys with
        | nil => simp at hlen
        | cons z zs => simp [categorize_time_control, h1, h2, h3, hp]
  · intro s h1 h2 h3 h4
    simp [categorize_time_control, h1, h2, h3, h4]

theorem c9_witness :
    charsSplitOn ("300+5" : String).data '+' =
      [("300" : String).data, ("5" : String).data] ∧
    pyInt? "300" = some 300 ∧ pyInt? "5" = some 5 ∧
    categorize_time_control "300+5" = "blitz" ∧
    pyInt? "1_0" = some 10 ∧
    categorize_time_control "1_0+5" = "blitz" ∧
    pyInt? "?" = none ∧
    charsContains ("?" : String).data '+' = false ∧
    categorize_time_control "?" = "unknown" := by
  refine ⟨by decide, by decide, by decide, ?_, by decide, ?_, by decide,
    by decide, ?_⟩
  · have h := c9_time_control_category.1 "300+5" ("300" : String).data
      ("5" : String).data 300 5 (by decide) (by decide) (by decide) (by decide)
      (by decide) (by decide)
    rw [h]
    decide
  · have h := c9_time_control_category.1 "1_0+5" ("1_0" : String).data
      ("5" : String).data 10 5 (by decide) (by decide) (by decide) (by decide)
      (by decide) (by decide)
    rw [h]
    decide
  · exact c9_time_control_category.2.2.2.2.2 "?" (by decide) (by decide)
      (by decide) (by decide)

theorem lookup_resolve_new (ps : List (String × MPlayer)) (u : String) (r : Int)
    (t : Option String) (h : lookupFirst ps u = none) :
    lookupFirst (get_or_create_player ps u r t) u = some ⟨t, r, r, 1⟩ := by
  induction ps with
  | nil => simp [get_or_create_player, lookupFirst]
  | cons p rest ih =>
    obtain ⟨k, q⟩ := p
    by_cases hk : k = u
    · simp [lookupFirst, hk] at h
    · simp only [get_or_create_player, if_neg hk, lookupFirst]
      exact ih (by simpa [lookupFirst, hk] using h)

theorem lookup_resolve_seen (ps : List (String × MPlayer)) (u : String)
    (r : Int) (t : Option String) (p : MPlayer)
    (h : lookupFirst ps u = some p) :
    lookupFirst (get_or_create_player ps u r t) u =
      some ⟨p.title, r, max p.peak_rating r, p.games_played + 1⟩ := by
  induction ps with
  | nil => simp [lookupFirst] at h
  | cons q0 rest ih =>
    obtain ⟨k, q⟩ := q0
    by_cases hk : k = u
    · have hq : q = p := by simpa [lookupFirst, hk] using h
      subst hq
      simp [get_or_create_player, hk, lookupFirst]
    · simp only [get_or_create_player, if_neg hk, lookupFirst]
      exact ih (by simpa [lookupFirst, hk] using h)

theorem p_lookup_resolve_new (qs : List (String × PPlayer)) (u : String)
    (r : Int) (h : lookupFirst qs u = none) :
    lookupFirst (p_get_or_create_player qs u r) u = some ⟨r, r, 1⟩ := by
  induction qs with
  | nil => simp [p_get_or_create_player, lookupFirst]
  | cons p rest ih =>
    obtain ⟨k, q⟩ := p
    by_cases hk : k = u
    · simp [lookupFirst, hk] at h
    · simp only [p_get_or_create_player, if_neg hk, lookupFirst]
      exact ih (by simpa [lookupFirst, hk] using h)

theorem p_lookup_resolve_seen (qs : List (String × PPlayer)) (u : String)
    (r : Int) (q : PPlayer) (h : lookupFirst qs u = some q) :
    lookupFirst (p_get_or_create_player qs u r) u =
      some ⟨r, if r ≠ 0 then max q.peak_rating r else q.peak_rating,
        q.games_played + 1⟩ := by
  induction qs with
  | nil => simp [lookupFirst] at h
  | cons p0 rest ih =>
    obtain ⟨k, q0⟩ := p0
    by_cases hk : k = u
    · have hq : q0 = q := by simpa [lookupFirst, hk] using h
      subst hq
      simp [p_get_or_create_player, hk, lookupFirst]
    · simp only [p_get_or_create_player, if_neg hk, lookupFirst]
      exact ih (by simpa [lookupFirst, hk] using h)

/-- C5: the first observation of a username creates the player with
current = peak = observed rating and games-played 1; every later observation
sets current to the new rating, maxes the peak, and adds 1 to games-played;
in particular observing R1 then R2 < R1 yields current = R2, peak = R1,
games-played 2.  The document-store `get_or_create_player` satisfies this for
every integer rating; the relational `get_or_create_player` (whose update
skips the max for a Python-falsy rating 0) satisfies it on the spec's rating
domain, i.e. for non-negative observed ratings and stored peaks. -/
theorem c5_player_identity (ps : List (String × MPlayer)) (u : String)
    (r : Int) (t : Option String) :
    (lookupFirst ps u = none →
      lookupFirst (get_or_create_player ps u r t) u = some ⟨t, r, r, 1⟩) ∧
    (∀ p : MPlayer, lookupFirst ps u = some p →
      lookupFirst (get_or_create_player ps u r t) u =
        some ⟨p.title, r, max p.peak_rating r, p.games_played + 1⟩) ∧
    (∀ (r1 r2 : Int) (t1 : Option String), r2 < r1 → lookupFirst ps u = none →
      lookupFirst
        (get_or_create_player (get_or_create_player ps u r1 t1) u r2 t) u =
        some ⟨t1, r2, r1, 2⟩) ∧
    (∀ qs : List (String × PPlayer), 0 ≤ r →
      (lookupFirst qs u = none →
        lookupFirst (p_get_or_create_player qs u r) u = some ⟨r, r, 1⟩) ∧
      (∀ q : PPlayer, lookupFirst qs u = some q → 0 ≤ q.peak_rating →
        lookupFirst (p_get_or_create_player qs u r) u =
          some ⟨r, max q.peak_rating r, q.games_played + 1⟩)) := by
  refine ⟨?_, ?_, ?_, ?_⟩
  · intro h
    exact lookup_resolve_new ps u r t h
  · intro p h
    exact lookup_resolve_seen ps u r t p h
  · intro r1 r2 t1 hlt h
    have h1 := lookup_resolve_new ps u r1 t1 h
    have h2 := lookup_resolve_seen _ u r2 t ⟨t1, r1, r1, 1⟩ h1
    rw [h2]
    simp [max_eq_left (le_of_lt hlt)]
  · intro qs hr
    constructor
    · intro h
      exact p_lookup_resolve_new qs u r h
    · intro q h hq
      rw [p_lookup_resolve_seen qs u r q h]
      by_cases h0 : r = 0
      · subst h0
        simp [max_eq_left hq]
      · simp [h0]

theorem c5_witness :
    lookupFirst ([] : List (String × MPlayer)) "Alice" = none ∧
    (1500 : Int) < 1600 ∧
    lookupFirst
      (get_or_create_player (get_or_create_player [] "Alice" 1600 none)
        "Alice" 1500 none) "Alice" = some ⟨none, 1500, 1600, 2⟩ :=
  ⟨rfl, by decide,
    (c5_player_identity [] "Alice" 1500 none).2.2.1 1600 1500 none (by decide) rfl⟩

/-- C1 (counterexample): a block with WhiteElo 4000 is rejected, yet by the
time of the rejection a player document for the white username (and the
black one) has been created: `parse_game` resolves both identities before
validating, so "no player identity is created or updated" fails. -/
theorem c1_counterexample :
    (parse_game emptyState badEloBlock).2 = none ∧
    lookupFirst emptyState.db.players "Alice" = none ∧
    lookupFirst (parse_game emptyState badEloBlock).1.db.players "Alice" =
      some ⟨none, 4000, 4000, 1⟩ ∧
    lookupFirst (parse_game emptyState badEloBlock).1.db.players "Bob" =
      some ⟨none, 1600, 1600, 1⟩ :=
  ⟨by decide, rfl, by decide, by decide⟩

/-- C1 (amended): a block whose move count is below 2 or above 500 or whose
white or black rating lies outside [0, 3500] is rejected: no game record is
produced, no delta is merged into the aggregation accumulator, and nothing is
persisted — but both player identities have already been resolved
(created/updated) through `get_or_create_player` before validation. -/
theorem c1_rejected_block (st : PState) (g : RawGame)
    (h : g.moves.length < 2 ∨ 500 < g.moves.length ∨
      g.whiteEloHeader.getD 1500 < 0 ∨ 3500 < g.whiteEloHeader.getD 1500 ∨
      g.blackEloHeader.getD 1500 < 0 ∨ 3500 < g.blackEloHeader.getD 1500) :
    (parse_game st g).2 = none ∧
    (parse_game st g).1.openings_buffer = st.openings_buffer ∧
    (parse_game st g).1.games_buffer = st.games_buffer ∧
    (parse_game st g).1.db.games = st.db.games ∧
    (parse_game st g).1.db.openings = st.db.openings ∧
    (parse_game st g).1.db.metadata = st.db.metadata ∧
    (parse_game st g).1.db.players =
      get_or_create_player
        (get_or_create_player st.db.players (g.white.getD "Unknown")
          (g.whiteEloHeader.getD 1500) (extract_title (g.white.getD "Unknown")))
        (g.black.getD "Unknown") (g.blackEloHeader.getD 1500)
        (extract_title (g.black.getD "Unknown")) := by
  simp only [parse_game]
  split
  · exact ⟨rfl, rfl, rfl, rfl, rfl, rfl, rfl⟩
  · split
    · exact ⟨rfl, rfl, rfl, rfl, rfl, rfl, rfl⟩
    · rename_i h1 h2
      exfalso
      omega

theorem c1_witness :
    (badEloBlock.moves.length < 2 ∨ 500 < badEloBlock.moves.length ∨
      badEloBlock.whiteEloHeader.getD 1500 < 0 ∨
      3500 < badEloBlock.whiteEloHeader.getD 1500 ∨
      badEloBlock.blackEloHeader.getD 1500 < 0 ∨
      3500 < badEloBlock.blackEloHeader.getD 1500) ∧
    (parse_game emptyState badEloBlock).1.openings_buffer =
      emptyState.openings_buffer :=
  ⟨by decide, (c1_rejected_block emptyState badEloBlock (by decide)).2.1⟩

/-- C7: the flush trigger fires exactly when, after appending an accepted
record, the pending count has reached `batch_size` or the size estimate has
reached `max_memory_bytes`, and never earlier (otherwise the step leaves the
nonempty buffer in place); and every flush leaves both buffers empty. -/
theorem c7_flush_trigger (cfg : Cfg) (st : PState) (r : GameRecord) :
    (should_flush cfg st = true ↔
      (cfg.batch_size ≤ st.games_buffer.length ∨
       cfg.max_memory_bytes ≤ get_buffer_size_bytes cfg st)) ∧
    ((flush_buffers st).games_buffer = [] ∧
      (flush_buffers st).openings_buffer = []) ∧
    (should_flush cfg (appendRecord st r) = true →
      ingestStepAccepted cfg st r = flush_buffers (appendRecord st r)) ∧
    (should_flush cfg (appendRecord st r) = false →
      ingestStepAccepted cfg st r = appendRecord st r ∧
      (ingestStepAccepted cfg st r).games_buffer ≠ []) := by
  refine ⟨?_, flush_clears st, ?_, ?_⟩
  · simp [should_flush]
  · intro h
    simp [ingestStepAccepted, h]
  · intro h
    refine ⟨by simp [ingestStepAccepted, h], ?_⟩
    simp only [ingestStepAccepted, appendRecord] at h ⊢
    simp [h]

theorem c7_witness :
    should_flush cfgBig (appendRecord emptyState testRecord) = false ∧
    ingestStepAccepted cfgBig emptyState testRecord =
      appendRecord emptyState testRecord :=
  ⟨by decide,
    ((c7_flush_trigger cfgBig emptyState testRecord).2.2.2 (by decide)).1⟩

theorem flush_games_fault (s : PState) (f : FlushFault) (rest : List FlushFault)
    (hf : s.faults = f :: rest) (hg : s.games_buffer ≠ []) :
    (flush_buffers s).db.games =
      s.db.games ++ (if f.insert_raises then [] else s.games_buffer) := by
  have hne : s.games_buffer.isEmpty = false := by
    cases hb : s.games_buffer
    · exact absurd hb hg
    · rfl
  simp only [flush_buffers, hf, hne, List.headD_cons, Bool.false_and,
    Bool.not_false, Bool.true_and, Bool.false_eq_true, if_false]
  by_cases hfi : f.insert_raises = true
  · simp [hfi]
  · simp only [hfi, if_false]
    split_ifs <;> simp

theorem flush_openings_fault (s : PState) (f : FlushFault)
    (rest : List FlushFault) (hf : s.faults = f :: rest)
    (hg : s.games_buffer ≠ [])
    (h : f.insert_raises = true ∨ f.upsert_raises = true) :
    (flush_buffers s).db.openings = s.db.openings := by
  have hne : s.games_buffer.isEmpty = false := by
    cases hb : s.games_buffer
    · exact absurd hb hg
    · rfl
  simp only [flush_buffers, hf, hne, List.headD_cons, Bool.false_and,
    Bool.not_false, Bool.true_and, Bool.false_eq_true, if_false]
  rcases h with hfi | hfu
  · simp [hfi]
  · by_cases hfi : f.insert_raises = true
    · simp [hfi]
    · simp only [hfi, if_false]
      split_ifs <;> simp_all

/-- C10 (counterexample): the flush swallows a backend exception and clears
both buffers, but when the exception comes from the aggregate upsert the
batch's records have already been persisted by the bulk insert, so the claim
that the records of the batch are permanently dropped fails there. -/
theorem c10_counterexample :
    (flush_buffers
      ⟨emptyDB, [testRecord], [("B01", ⟨"B01", "Scandinavian", 1, 1, 0, 0, 1500, 1600⟩)],
        0, [⟨false, true⟩]⟩).db.games = [testRecord] ∧
    (flush_buffers
      ⟨emptyDB, [testRecord], [("B01", ⟨"B01", "Scandinavian", 1, 1, 0, 0, 1500, 1600⟩)],
        0, [⟨false, true⟩]⟩).games_buffer = [] ∧
    (flush_buffers
      ⟨emptyDB, [testRecord], [("B01", ⟨"B01", "Scandinavian", 1, 1, 0, 0, 1500, 1600⟩)],
        0, [⟨false, true⟩]⟩).openings_buffer = [] ∧
    (flush_buffers
      ⟨emptyDB, [testRecord], [("B01", ⟨"B01", "Scandinavian", 1, 1, 0, 0, 1500, 1600⟩)],
        0, [⟨false, true⟩]⟩).db.openings = [] :=
  ⟨by decide, by decide, by decide, by decide⟩

/-- C10 (amended): when the backend raises during a flush the exception is
swallowed and both buffers are reset to empty, dropping whatever had not been
persisted: a failure in the bulk insert drops both the batch's records and
its aggregate deltas, while a failure in the aggregate upsert happens after
the records were persisted, so only the deltas are dropped; ingestion
continues either way and the accepted-record counter counts every validated
block regardless of the fault schedule. -/
theorem c10_flush_error_swallowed (st : PState) (f : FlushFault)
    (rest : List FlushFault) (hf : st.faults = f :: rest)
    (hg : st.games_buffer ≠ []) :
    (flush_buffers st).games_buffer = [] ∧
    (flush_buffers st).openings_buffer = [] ∧
    (flush_buffers st).db.games =
      st.db.games ++ (if f.insert_raises then [] else st.games_buffer) ∧
    ((f.insert_raises = true ∨ f.upsert_raises = true) →
      (flush_buffers st).db.openings = st.db.openings) ∧
    (∀ (cfg : Cfg) (st2 : PState) (n : Nat) (blocks : List RawGame),
      (ingestLoop cfg none st2 n blocks).2 = n + countAccepted blocks) := by
  refine ⟨(flush_clears st).1, (flush_clears st).2, ?_, ?_, ?_⟩
  · exact flush_games_fault st f rest hf hg
  · intro h
    exact flush_openings_fault st f rest hf hg h
  · intro cfg st2 n blocks
    exact ingestLoop_count cfg st2 n blocks

theorem c10_witness :
    (⟨emptyDB, [testRecord], [], 0, [⟨true, false⟩]⟩ : PState).faults =
      ⟨true, false⟩ :: [] ∧
    (⟨emptyDB, [testRecord], [], 0, [⟨true, false⟩]⟩ : PState).games_buffer ≠ [] ∧
    (flush_buffers ⟨emptyDB, [testRecord], [], 0, [⟨true, false⟩]⟩).db.games =
      emptyDB.games ++ (if (true : Bool) then [] else [testRecord]) :=
  ⟨rfl, by decide,
    (c10_flush_error_swallowed ⟨emptyDB, [testRecord], [], 0, [⟨true, false⟩]⟩
      ⟨true, false⟩ [] rfl (by decide)).2.2.1⟩

/-- C4 (counterexample): interrupting after one accepted-but-unflushed block
does flush the record, but writes no checkpoint at all — the
`except KeyboardInterrupt` handler calls `flush_buffers` and returns without
reaching the `metadata.insert_one`, so "exactly one checkpoint is written"
fails (zero are written). -/
theorem c4_counterexample :
    (ingestInterrupted cfgBig none emptyState [okBlock]).1.db.games.length = 1 ∧
    (ingestInterrupted cfgBig none emptyState [okBlock]).1.db.metadata = [] :=
  ⟨by decide, by decide⟩

/-- C4 (amended): on interruption after any prefix of the stream, with a
fault-free backend, the handler's final flush persists every buffered record
(the persisted games equal those of a natural end-of-stream run on the same
prefix) and empties both buffers, but no checkpoint is written — the
metadata collection is left untouched, while only the natural end-of-stream
path appends exactly one checkpoint carrying the processed count and the
parse-error count. -/
theorem c4_interruption (cfg : Cfg) (maxGames : Option Nat) (fp : String)
    (st : PState) (blocks : List RawGame) (h : st.faults = []) :
    (ingestInterrupted cfg maxGames st blocks).1.games_buffer = [] ∧
    (ingestInterrupted cfg maxGames st blocks).1.openings_buffer = [] ∧
    (ingestInterrupted cfg maxGames st blocks).1.db.games =
      (ingestLoop cfg maxGames st 0 blocks).1.db.games ++
        (ingestLoop cfg maxGames st 0 blocks).1.games_buffer ∧
    (ingestInterrupted cfg maxGames st blocks).1.db.metadata =
      st.db.metadata ∧
    (ingestFile cfg maxGames fp st blocks).1.db.games =
      (ingestInterrupted cfg maxGames st blocks).1.db.games ∧
    (ingestFile cfg maxGames fp st blocks).1.db.metadata =
      st.db.metadata ++
        [⟨fp, (ingestFile cfg maxGames fp st blocks).2,
          (ingestLoop cfg maxGames st 0 blocks).1.parse_errors⟩] := by
  have hfa : (ingestLoop cfg maxGames st 0 blocks).1.faults = [] :=
    ingestLoop_faults_nil cfg maxGames st 0 blocks h
  refine ⟨(flush_clears _).1, (flush_clears _).2, ?_, ?_, ?_, ?_⟩
  · exact flush_games_nofault _ hfa
  · rw [show (ingestInterrupted cfg maxGames st blocks).1 =
      flush_buffers (ingestLoop cfg maxGames st 0 blocks).1 from rfl]
    rw [flush_metadata, ingestLoop_metadata]
  · rfl
  · rw [show (ingestFile cfg maxGames fp st blocks).1.db.metadata =
      (flush_buffers (ingestLoop cfg maxGames st 0 blocks).1).db.metadata ++
        [⟨fp, (ingestFile cfg maxGames fp st blocks).2,
          (flush_buffers (ingestLoop cfg maxGames st 0 blocks).1).parse_errors⟩]
      from rfl]
    rw [flush_metadata, ingestLoop_metadata, flush_parse_errors]

theorem c4_witness :
    emptyState.faults = [] ∧
    (ingestInterrupted cfgBig none emptyState [okBlock]).1.db.metadata =
      emptyState.db.metadata ∧
    (ingestFile cfgBig none "lichess.pgn" emptyState [okBlock]).1.db.metadata =
      emptyState.db.metadata ++
        [⟨"lichess.pgn", (ingestFile cfgBig none "lichess.pgn" emptyState [okBlock]).2,
          (ingestLoop cfgBig none emptyState 0 [okBlock]).1.parse_errors⟩] :=
  ⟨rfl,
    (c4_interruption cfgBig none "lichess.pgn" emptyState [okBlock] rfl).2.2.2.1,
    (c4_interruption cfgBig none "lichess.pgn" emptyState [okBlock] rfl).2.2.2.2.2⟩

/-- One drain's worth of accumulation: fold observations into an initially
empty accumulator, as the parser does between two flushes. -/
def accumulateObs (os : List GameObs) : List (String × Agg) :=
  os.foldl bufferOpeningStats []

/-- C2: for every sequence of accepted records and every partition of it
into consecutive flush batches, accumulating and upserting batch by batch
leaves the same persisted per-opening-code totals (total games, the three
outcome buckets, both rating sums) as accumulating the whole sequence and
upserting once. -/
theorem c2_aggregation_associativity (s0 : List (String × Agg))
    (P : List (List GameObs)) (os : List GameObs) (h : P.flatten = os)
    (c : String) :
    totalsLookup
      (P.foldl
        (fun s batch => update_opening_statistics s (accumulateObs batch)) s0) c =
    totalsLookup (update_opening_statistics s0 (accumulateObs os)) c := by
  subst h
  have single : ∀ (xs : List GameObs) (s : List (String × Agg)),
      totalsLookup (update_opening_statistics s (accumulateObs xs)) c =
        oadd (totalsLookup s c) (obsT xs c) := by
    intro xs s
    rw [totalsLookup_update,
      show accumulateObs xs = List.foldl bufferOpeningStats [] xs from rfl,
      bufTotals_foldl]
    rfl
  have multi : ∀ (Q : List (List GameObs)) (s : List (String × Agg)),
      totalsLookup
        (Q.foldl
          (fun s batch => update_opening_statistics s (accumulateObs batch)) s) c =
        oadd (totalsLookup s c) (obsT Q.flatten c) := by
    intro Q
    induction Q with
    | nil => intro s; simp [obsT]
    | cons b Q ih =>
      intro s
      simp only [List.foldl_cons]
      rw [ih, single, oadd_assoc, ← obsT_append]
      rfl
  rw [multi, single]

theorem c2_witness :
    ([[obsWhiteWin], [obsDraw]] : List (List GameObs)).flatten =
      [obsWhiteWin, obsDraw] ∧
    totalsLookup
      (([[obsWhiteWin], [obsDraw]] : List (List GameObs)).foldl
        (fun s batch => update_opening_statistics s (accumulateObs batch)) [])
      "B01" =
    totalsLookup
      (update_opening_statistics [] (accumulateObs [obsWhiteWin, obsDraw]))
      "B01" :=
  ⟨rfl, c2_aggregation_associativity [] [[obsWhiteWin], [obsDraw]]
    [obsWhiteWin, obsDraw] rfl "B01"⟩

/-- C3 (counterexample): a first upsert creates the B01 row with name
"Scandinavian"; a second upsert touching the same code with name "Modern"
overwrites the persisted name (the update uses `$set`, not set-on-insert),
so "first-seen wins, never overwritten" fails. -/
theorem c3_counterexample :
    nameLookup (update_opening_statistics [] (accumulateObs [obsWhiteWin]))
      "B01" = some "Scandinavian" ∧
    nameLookup
      (update_opening_statistics
        (update_opening_statistics [] (accumulateObs [obsWhiteWin]))
        (accumulateObs [obsDraw])) "B01" = some "Modern" ∧
    ("Modern" : String) ≠ "Scandinavian" :=
  ⟨by decide, by decide, by decide⟩

/-- C3 (amended): across any sequence of upsert batches, the persisted
opening name of a code is the name supplied by the last delta of the
sequence touching that code (the `$set` overwrites it on every upsert,
including the creating one), falling back to the previously persisted name;
all six counter fields are updated by additive increment. -/
theorem c3_upsert_name_semantics (s : List (String × Agg))
    (bufs : List (List (String × Agg))) (c : String) :
    nameLookup (bufs.foldl update_opening_statistics s) c =
      (match lastNameFor bufs.flatten c with
       | some n => some n
       | none => nameLookup s c) ∧
    totalsLookup (bufs.foldl update_opening_statistics s) c =
      oadd (totalsLookup s c) (bufTotals bufs.flatten c) := by
  induction bufs generalizing s with
  | nil =>
    refine ⟨?_, ?_⟩
    · simp [lastNameFor]
    · simp [bufTotals]
  | cons b bufs ih =>
    refine ⟨?_, ?_⟩
    · simp only [List.foldl_cons]
      rw [(ih (update_opening_statistics s b)).1, nameLookup_update,
        show (b :: bufs).flatten = b ++ bufs.flatten from rfl, lastNameFor_append]
      cases lastNameFor bufs.flatten c <;> cases lastNameFor b c <;> rfl
    · simp only [List.foldl_cons]
      rw [(ih (update_opening_statistics s b)).2, totalsLookup_update,
        show (b :: bufs).flatten = b ++ bufs.flatten from rfl, bufTotals_append,
        oadd_assoc]

/-- C8: for every opening-code entry of the accumulator, after any sequence
of merged observations, total games equals white wins + black wins + draws
plus the number of merged games for that code whose result string is none of
the three recognized outcomes. -/
theorem c8_outcome_invariant (os : List GameObs) (k : String) (a : Agg)
    (h : lookupFirst (accumulateObs os) k = some a) :
    a.total_games = a.white_wins + a.black_wins + a.draws + unrecCount os k := by
  have hl := lookupFirst_foldl_buffer os [] k
  rw [show accumulateObs os = List.foldl bufferOpeningStats [] os from rfl,
    hl] at h
  exact applyList_bucket os k a h

theorem c8_witness :
    lookupFirst (accumulateObs [obsWhiteWin, obsOdd]) "B01" =
      some ⟨"B01", "Scandinavian", 2, 1, 0, 0, 3000, 3200⟩ ∧
    (⟨"B01", "Scandinavian", 2, 1, 0, 0, 3000, 3200⟩ : Agg).total_games =
      (⟨"B01", "Scandinavian", 2, 1, 0, 0, 3000, 3200⟩ : Agg).white_wins +
        (⟨"B01", "Scandinavian", 2, 1, 0, 0, 3000, 3200⟩ : Agg).black_wins +
        (⟨"B01", "Scandinavian", 2, 1, 0, 0, 3000, 3200⟩ : Agg).draws +
        unrecCount [obsWhiteWin, obsOdd] "B01" :=
  ⟨by decide, c8_outcome_invariant [obsWhiteWin, obsOdd] "B01" _ (by decide)⟩

/-- C6: evaluating the same backend operations against both stores.  Player
resolution agrees on both (same rating statistics), but the relational store
has no bulk record insert, no aggregate upsert, and no checkpoint write: the
class lacks `bulk_insert_games` and `update_opening_statistics` and has no
`metadata` attribute or corresponding tables, so those calls raise
`AttributeError` (`none`), while the document store performs them. -/
theorem c6_backend_divergence :
    portableApplyOp ⟨[], []⟩
      (BackendOp.upsertAggregates
        [("B01", ⟨"B01", "Scandinavian", 1, 1, 0, 0, 1500, 1600⟩)]) = none ∧
    portableApplyOp ⟨[], []⟩ (BackendOp.bulkInsertRecords [testRecord]) = none ∧
    portableApplyOp ⟨[], []⟩
      (BackendOp.recordCheckpoint ⟨"lichess.pgn", 1, 0⟩) = none ∧
    (mongoApplyOp emptyDB
      (BackendOp.upsertAggregates
        [("B01", ⟨"B01", "Scandinavian", 1, 1, 0, 0, 1500, 1600⟩)])).openings ≠
      [] ∧
    (mongoApplyOp emptyDB (BackendOp.bulkInsertRecords [testRecord])).games =
      [testRecord] ∧
    (mongoApplyOp emptyDB
      (BackendOp.recordCheckpoint ⟨"lichess.pgn", 1, 0⟩)).metadata =
      [⟨"lichess.pgn", 1, 0⟩] ∧
    (portableApplyOp ⟨[], []⟩ (BackendOp.resolvePlayer "Alice" 1500 none)).map
        (fun db => lookupFirst db.players "Alice") =
      some (some ⟨1500, 1500, 1⟩) ∧
    lookupFirst
      (mongoApplyOp emptyDB
        (BackendOp.resolvePlayer "Alice" 1500 none)).players "Alice" =
      some ⟨none, 1500, 1500, 1⟩ :=
  ⟨rfl, rfl, rfl, by decide, by decide, by decide, by decide, by decide⟩

end ChessIngest
